import Mathlib

/-
Verification development for the video-calling signaling system.

Server side (SignalingGateway): a `Map<string, Room>` from room id to a set
of member connection ids, with handlers `handleJoinRoom`, `handleDisconnect`,
`handleOffer`, `handleAnswer`, `handleIceCandidate`.

Client side (VideoCall component): a `Map<string, PeerConnection>` from remote
user id to a peer record carrying the RTCPeerConnection handle, an ICE
candidate buffer and a `remoteDescriptionSet` flag, with socket handlers and
media toggles.

JS `Map` is modelled as an association list preserving insertion order
(`Map.set` replaces in place or appends at the end); JS `Set` as a
duplicate-free list preserving insertion order.
-/

namespace VideoCallApp

/-- Lookup in an association list: the value of the first entry with the given
key, mirroring JS `Map.get`. -/
def alookup {α β : Type} [DecidableEq α] : List (α × β) → α → Option β
  | [], _ => none
  | (k0, v) :: rest, k => if k = k0 then some v else alookup rest k

/-- `Map.set` semantics: replace the value of the first entry with the key in
place, otherwise append a new entry at the end. -/
def aset {α β : Type} [DecidableEq α] : List (α × β) → α → β → List (α × β)
  | [], k, v => [(k, v)]
  | (k0, v0) :: rest, k, v =>
    if k = k0 then (k0, v) :: rest else (k0, v0) :: aset rest k v

/-- `Map.delete` semantics: remove the first entry with the key. -/
def adel {α β : Type} [DecidableEq α] : List (α × β) → α → List (α × β)
  | [], _ => []
  | (k0, v0) :: rest, k =>
    if k = k0 then rest else (k0, v0) :: adel rest k

/-! ## Server model (SignalingGateway, src/unnamed/part_000) -/

/-- A message emitted by the gateway to a specific connection
(`this.server.to(id).emit(...)` / `client.emit(...)`).  Negotiation payloads
are opaque and modelled as `Nat`. -/
inductive SrvMsg : Type
  | userJoined (userId : String)
  | userLeft (userId : String)
  | roomUsers (users : List String)
  | offerFwd (payload : Nat) (fromId : String)
  | answerFwd (payload : Nat) (fromId : String)
  | candFwd (payload : Nat) (fromId : String)
deriving DecidableEq, Repr

/-- The gateway's `rooms : Map<string, Room>`; each `Room` holds
`users : Set<string>` modelled as a duplicate-free list in insertion order. -/
abbrev Rooms := List (String × List String)

/-- `rooms.get(roomId)` (first entry with the key). -/
def findRoom : Rooms → String → Option (List String)
  | [], _ => none
  | (r0, us) :: rest, r => if r = r0 then some us else findRoom rest r

/-- The member set of a room, `[]` when the room is absent. -/
def roomMembers (rooms : Rooms) (r : String) : List String :=
  (findRoom rooms r).getD []

/-- `room.users.add(id)`: appends if absent, no-op if present. -/
def addMem (c : String) (us : List String) : List String :=
  if c ∈ us then us else us ++ [c]

/-- In-place mutation of the room object fetched for key `r`
(the JS code mutates `room.users` of the entry obtained from the map). -/
def setRoomVal (rooms : Rooms) (r : String) (v : List String) : Rooms :=
  rooms.map (fun e => if e.1 = r then (r, v) else e)

/-- `handleJoinRoom` (src/unnamed/part_000, lines 53-80): create the room if
absent, notify every user currently in the set of `user-joined`, add the
joiner, then send the joiner the member list excluding itself. -/
def joinRoom (rooms : Rooms) (c r : String) : Rooms × List (String × SrvMsg) :=
  let rooms1 := match findRoom rooms r with
    | none => rooms ++ [(r, [])]
    | some _ => rooms
  let us := (findRoom rooms1 r).getD []
  let notifyOld := us.map (fun u => (u, SrvMsg.userJoined c))
  let usAfter := addMem c us
  let rooms2 := setRoomVal rooms1 r usAfter
  (rooms2, notifyOld ++ [(c, SrvMsg.roomUsers (usAfter.filter (fun x => x ≠ c)))])

/-- `handleDisconnect` (src/unnamed/part_000, lines 32-51): for every room, in
map order, if the client is a member: delete it, notify the remaining members
with `user-left`, and delete the room if it became empty. -/
def handleDisconnect (rooms : Rooms) (c : String) : Rooms × List (String × SrvMsg) :=
  match rooms with
  | [] => ([], [])
  | (r, us) :: rest =>
    let tail := handleDisconnect rest c
    if c ∈ us then
      let us' := us.erase c
      let sends0 := us'.map (fun u => (u, SrvMsg.userLeft c))
      (if us' = [] then tail.1 else (r, us') :: tail.1, sends0 ++ tail.2)
    else ((r, us) :: tail.1, tail.2)

/-- Delivery semantics of `this.server.to(target).emit(msg)`: socket.io puts
every live socket in a room named by its own id, so the emit reaches exactly
the target connection when it is registered and nobody otherwise. -/
def emitToTarget (registry : List String) (target : String) (m : SrvMsg) :
    List (String × SrvMsg) :=
  if target ∈ registry then [(target, m)] else []

/-- `handleOffer` (server, lines 82-92): relay the offer payload to `data.to`
with the sender's id attached as `from`; the room map is untouched. -/
def srvForwardOffer (registry : List String) (rooms : Rooms) (sender : String)
    (payload : Nat) (target : String) : Rooms × List (String × SrvMsg) :=
  (rooms, emitToTarget registry target (SrvMsg.offerFwd payload sender))

/-- `handleAnswer` (server, lines 94-103). -/
def srvForwardAnswer (registry : List String) (rooms : Rooms) (sender : String)
    (payload : Nat) (target : String) : Rooms × List (String × SrvMsg) :=
  (rooms, emitToTarget registry target (SrvMsg.answerFwd payload sender))

/-- `handleIceCandidate` (server, lines 105-113). -/
def srvForwardCand (registry : List String) (rooms : Rooms) (sender : String)
    (payload : Nat) (target : String) : Rooms × List (String × SrvMsg) :=
  (rooms, emitToTarget registry target (SrvMsg.candFwd payload sender))

/-- Events that mutate the server's room map. -/
inductive SEvent : Type
  | join (c r : String)
  | disc (c : String)
deriving DecidableEq, Repr

/-- Apply a sequence of join/disconnect events to the room map. -/
def runServer (rooms : Rooms) : List SEvent → Rooms
  | [] => rooms
  | SEvent.join c r :: es => runServer (joinRoom rooms c r).1 es
  | SEvent.disc c :: es => runServer (handleDisconnect rooms c).1 es

/-- Reference membership history: starting from membership predicate `m`, a
join makes the pair (room, connection) a member, a disconnect removes the
connection from every room. -/
def runSpec (m : String → String → Bool) : List SEvent → String → String → Bool
  | [], r, c => m r c
  | SEvent.join c' r' :: es, r, c =>
    runSpec (fun r0 c0 => if r0 = r' ∧ c0 = c' then true else m r0 c0) es r c
  | SEvent.disc c' :: es, r, c =>
    runSpec (fun r0 c0 => if c0 = c' then false else m r0 c0) es r c

/-- `joinedSince es r c`: connection `c` issued a join for room `r` and has not
since disconnected. -/
def joinedSince (es : List SEvent) (r c : String) : Bool :=
  runSpec (fun _ _ => false) es r c

/-- Well-formedness of the room map as it arises from JS `Map`/`Set`: distinct
room keys, duplicate-free member lists, and no empty room. -/
def WFrooms (rooms : Rooms) : Prop :=
  (rooms.map Prod.fst).Nodup ∧ (∀ e ∈ rooms, e.2.Nodup) ∧ ∀ e ∈ rooms, e.2 ≠ []

/-! ## Client model (VideoCall component, src/unnamed/part_004)

Negotiation-relevant view of the browser objects: an `RTCPeerConnection` is a
numeric handle into a table of `RTC` records; session descriptions, ICE
candidates and media streams are opaque `Nat` payloads. -/

inductive TrackKind : Type
  | audio
  | video
deriving DecidableEq, Repr

/-- A local media track: identity plus its `enabled` flag. -/
structure Track : Type where
  id : Nat
  enabled : Bool
deriving DecidableEq, Repr

/-- The local capture stream (`localStreamRef.current`): at most one audio and
one video track. -/
structure LocalMedia : Type where
  audio : Option Track
  video : Option Track
deriving DecidableEq, Repr

/-- `RTCPeerConnection.signalingState` values the code inspects. -/
inductive SigSt : Type
  | stable
  | haveLocalOffer
  | haveRemoteOffer
deriving DecidableEq, Repr

/-- `RTCPeerConnection.connectionState` values. -/
inductive ConnSt : Type
  | newSt
  | connecting
  | connected
  | disconnected
  | failed
  | closed
deriving DecidableEq, Repr

/-- Negotiation-relevant state of one `RTCPeerConnection`. -/
structure RTC : Type where
  remoteDesc : Option Nat
  localDesc : Option Nat
  /-- ICE candidates applied via `addIceCandidate`, in application order. -/
  applied : List Nat
  /-- Kinds of the sender slots created by `addTrack`. -/
  senders : List TrackKind
  sigState : SigSt
  closed : Bool
deriving DecidableEq, Repr

/-- A fresh `new RTCPeerConnection(PC_CONFIG)`. -/
def newRTC (senders : List TrackKind) : RTC :=
  { remoteDesc := none, localDesc := none, applied := [], senders := senders,
    sigState := SigSt.stable, closed := false }

/-- The `PeerConnection` record stored in `peersRef.current`. -/
structure PeerLink : Type where
  userId : String
  /-- Handle of the underlying `RTCPeerConnection`. -/
  conn : Nat
  /-- The most recently stored remote `MediaStream`, if any. -/
  stream : Option Nat
  /-- Buffered inbound ICE candidates, in arrival order. -/
  iceCandidates : List Nat
  remoteDescriptionSet : Bool
deriving DecidableEq, Repr

/-- The orchestrator's state: `peersRef.current`, the table of live browser
connections, fresh-handle counters, local media and room-join bookkeeping. -/
structure CState : Type where
  peers : List (String × PeerLink)
  conns : List (Nat × RTC)
  nextConn : Nat
  nextDesc : Nat
  localStream : Option LocalMedia
  hasJoinedRoom : Bool
  roomId : String
deriving DecidableEq, Repr

/-- Read a connection record by handle (absent handles give an inert record). -/
def getRTC (conns : List (Nat × RTC)) (h : Nat) : RTC :=
  (alookup conns h).getD (newRTC [])

/-- `peerConnection.close()`. -/
def closeRTC (r : RTC) : RTC :=
  { r with closed := true }

/-- Tracks added at connection creation: `getTracks().forEach(track => if
(track.enabled) addTrack(track, stream))`. -/
def localSenderKinds (m : Option LocalMedia) : List TrackKind :=
  match m with
  | none => []
  | some lm =>
    (match lm.audio with
     | some t => if t.enabled then [TrackKind.audio] else []
     | none => []) ++
    (match lm.video with
     | some t => if t.enabled then [TrackKind.video] else []
     | none => [])

/-- `createPeerConnection(userId)` (part_004, lines 215-330): close any
existing connection for the user, create a fresh one with the enabled local
tracks attached, and store a fresh `PeerConnection` record (empty candidate
buffer, `remoteDescriptionSet: false`) in the map.  Returns the new handle. -/
def createPeerConnection (st : CState) (uid : String) : CState × Nat :=
  let conns1 :=
    match alookup st.peers uid with
    | some p => aset st.conns p.conn (closeRTC (getRTC st.conns p.conn))
    | none => st.conns
  let h := st.nextConn
  let p : PeerLink :=
    { userId := uid, conn := h, stream := none, iceCandidates := [],
      remoteDescriptionSet := false }
  ({ st with conns := aset conns1 h (newRTC (localSenderKinds st.localStream)),
             nextConn := h + 1,
             peers := aset st.peers uid p }, h)

/-- `addBufferedIceCandidates(peer)` (part_004, lines 333-345): when the buffer
is non-empty and the flag is set, apply every buffered candidate in order to
the connection and clear the buffer. -/
def addBufferedIceCandidates (p : PeerLink) (r : RTC) : PeerLink × RTC :=
  if 0 < p.iceCandidates.length ∧ p.remoteDescriptionSet then
    ({ p with iceCandidates := [] },
     { r with applied := r.applied ++ p.iceCandidates })
  else (p, r)

/-- Messages and browser calls emitted by the client handlers. -/
inductive Out : Type
  | joinRoom (roomId : String)
  | offerMsg (target : String) (payload : Nat)
  | answerMsg (target : String) (payload : Nat)
  | candMsg (target : String) (payload : Nat)
  | replaceTrack (uid : String) (kind : TrackKind) (trackId : Nat)
  | restartIce (uid : String)
deriving DecidableEq, Repr

/-- Whether an `Out` action is an offer relayed to a peer. -/
def Out.isOfferMsg : Out → Bool
  | Out.offerMsg _ _ => true
  | _ => false

/-- Whether an `Out` action is a `replaceTrack` call. -/
def Out.isReplaceTrack : Out → Bool
  | Out.replaceTrack _ _ _ => true
  | _ => false

/-- `handleOffer` (part_004, lines 396-434).  When a `PeerConnection` record
exists for `from`, the mutations (`remoteDescriptionSet = true`, buffer flush)
act on the stored record.  When none exists, the code builds a *local* record
wrapping `createPeerConnection(from)` while `createPeerConnection` has stored
a different record in the map: the flag update and flush touch only the local
record, so the stored record keeps `remoteDescriptionSet = false`.  In both
branches the remote description is applied to the shared connection, an
answer is created, set locally and relayed. -/
def handleOffer (st : CState) (fromU : String) (offer : Nat) : CState × List Out :=
  match alookup st.peers fromU with
  | some p0 =>
    let r0 := getRTC st.conns p0.conn
    let r1 := { r0 with remoteDesc := some offer, sigState := SigSt.haveRemoteOffer }
    let p1 := { p0 with remoteDescriptionSet := true }
    let fl := addBufferedIceCandidates p1 r1
    let ans := st.nextDesc
    let r3 := { fl.2 with localDesc := some ans, sigState := SigSt.stable }
    ({ st with peers := aset st.peers fromU fl.1,
               conns := aset st.conns p0.conn r3,
               nextDesc := st.nextDesc + 1 },
     [Out.answerMsg fromU ans])
  | none =>
    let cr := createPeerConnection st fromU
    let r0 := getRTC cr.1.conns cr.2
    let r1 := { r0 with remoteDesc := some offer, sigState := SigSt.haveRemoteOffer }
    let ans := cr.1.nextDesc
    let r2 := { r1 with localDesc := some ans, sigState := SigSt.stable }
    ({ cr.1 with conns := aset cr.1.conns cr.2 r2,
                 nextDesc := cr.1.nextDesc + 1 },
     [Out.answerMsg fromU ans])

/-- `handleAnswer` (part_004, lines 437-458): only when a record exists for
`from`; apply the remote description, set the flag, flush the buffer. -/
def handleAnswer (st : CState) (fromU : String) (ans : Nat) : CState × List Out :=
  match alookup st.peers fromU with
  | none => (st, [])
  | some p0 =>
    let r0 := getRTC st.conns p0.conn
    let r1 := { r0 with remoteDesc := some ans, sigState := SigSt.stable }
    let p1 := { p0 with remoteDescriptionSet := true }
    let fl := addBufferedIceCandidates p1 r1
    ({ st with peers := aset st.peers fromU fl.1,
               conns := aset st.conns p0.conn fl.2 }, [])

/-- `handleIceCandidate` (part_004, lines 461-483): only when a record exists
for `from`; buffer the candidate when `remoteDescriptionSet` is false, apply
it immediately otherwise. -/
def handleIceCandidate (st : CState) (fromU : String) (c : Nat) : CState × List Out :=
  match alookup st.peers fromU with
  | none => (st, [])
  | some p0 =>
    if p0.remoteDescriptionSet = false then
      let p1 := { p0 with iceCandidates := p0.iceCandidates ++ [c] }
      ({ st with peers := aset st.peers fromU p1 }, [])
    else
      let r0 := getRTC st.conns p0.conn
      let r1 := { r0 with applied := r0.applied ++ [c] }
      ({ st with conns := aset st.conns p0.conn r1 }, [])

/-- Body of the `handleRoomUsers` loop for one user id: skip when a record
already exists, otherwise create the connection, create an offer, set it as
the local description and relay it. -/
def offerToNew (st : CState) (uid : String) : CState × List Out :=
  if (alookup st.peers uid).isSome then (st, [])
  else
    let cr := createPeerConnection st uid
    let off := cr.1.nextDesc
    let r := getRTC cr.1.conns cr.2
    let r1 := { r with localDesc := some off, sigState := SigSt.haveLocalOffer }
    ({ cr.1 with conns := aset cr.1.conns cr.2 r1,
                 nextDesc := cr.1.nextDesc + 1 },
     [Out.offerMsg uid off])

/-- `handleRoomUsers` (part_004, lines 356-381): iterate the bootstrap list. -/
def handleRoomUsers (st : CState) : List String → CState × List Out
  | [] => (st, [])
  | u :: rest =>
    let s1 := offerToNew st u
    let s2 := handleRoomUsers s1.1 rest
    (s2.1, s1.2 ++ s2.2)

/-- `handleUserJoined` (part_004, lines 384-393): skip when a record already
exists, otherwise create a connection (no offer is sent by this side). -/
def handleUserJoined (st : CState) (uid : String) : CState × List Out :=
  if (alookup st.peers uid).isSome then (st, [])
  else ((createPeerConnection st uid).1, [])

/-- `handleUserLeft` (part_004, lines 486-500): close and drop the record. -/
def handleUserLeft (st : CState) (uid : String) : CState × List Out :=
  match alookup st.peers uid with
  | none => (st, [])
  | some p =>
    ({ st with conns := aset st.conns p.conn (closeRTC (getRTC st.conns p.conn)),
               peers := adel st.peers uid }, [])

/-- The socket `connect` / `reconnect` handlers (part_004, lines 105-143):
re-emit `join-room` when the client had joined a room and still holds the
local stream. -/
def onSocketConnect (st : CState) : CState × List Out :=
  if st.hasJoinedRoom ∧ st.localStream.isSome then (st, [Out.joinRoom st.roomId])
  else (st, [])

/-- `onconnectionstatechange` (part_004, lines 283-302): on `failed` or
`disconnected`, if the stored record exists and its connection's signaling
state is `stable`, call `restartIce()`; on `closed`, drop the record. -/
def onConnectionStateChange (st : CState) (uid : String) (reported : ConnSt) :
    CState × List Out :=
  if reported = ConnSt.failed ∨ reported = ConnSt.disconnected then
    match alookup st.peers uid with
    | some p =>
      if (getRTC st.conns p.conn).sigState = SigSt.stable then
        (st, [Out.restartIce uid])
      else (st, [])
    | none => (st, [])
  else if reported = ConnSt.closed then
    ({ st with peers := adel st.peers uid }, [])
  else (st, [])

/-- `oniceconnectionstatechange` (part_004, lines 305-313): on ICE state
`failed`, call `restartIce()` on the closure's connection. -/
def onIceStateChange (st : CState) (uid : String) (iceFailed : Bool) :
    CState × List Out :=
  if iceFailed then (st, [Out.restartIce uid]) else (st, [])

/-- The per-peer body of the toggle loops: find a sender of the kind and call
`replaceTrack` on it when present. -/
def replaceTrackOuts (st : CState) (k : TrackKind) (tid : Nat) : List Out :=
  st.peers.filterMap (fun e =>
    if k ∈ (getRTC st.conns e.2.conn).senders then
      some (Out.replaceTrack e.1 k tid)
    else none)

/-- `toggleAudio` (part_004, lines 528-546): flip the audio track's `enabled`
flag and run `replaceTrack` with it on every peer that has an audio sender. -/
def toggleAudio (st : CState) : CState × List Out :=
  match st.localStream with
  | none => (st, [])
  | some lm =>
    match lm.audio with
    | none => (st, [])
    | some t =>
      let t' := { t with enabled := !t.enabled }
      ({ st with localStream := some { lm with audio := some t' } },
       replaceTrackOuts st TrackKind.audio t'.id)

/-- `toggleVideo` (part_004, lines 549-567). -/
def toggleVideo (st : CState) : CState × List Out :=
  match st.localStream with
  | none => (st, [])
  | some lm =>
    match lm.video with
    | none => (st, [])
    | some t =>
      let t' := { t with enabled := !t.enabled }
      ({ st with localStream := some { lm with video := some t' } },
       replaceTrackOuts st TrackKind.video t'.id)

/-! ## Concrete instances used in witnesses and counterexamples -/

def uA : String := "a"

def uB : String := "b"

def uX : String := "x"

def rR : String := "r1"

def demoEvents : List SEvent := [SEvent.join uA rR, SEvent.join uB rR, SEvent.disc uA]

def demoRooms : Rooms := [(rR, [uB])]

def demoRooms2 : Rooms := [(rR, [uA, uB])]

def demoMedia : LocalMedia :=
  { audio := some { id := 0, enabled := true },
    video := some { id := 1, enabled := true } }

/-- A client that has joined room `rR` and holds local media, with no peers. -/
def stBase : CState :=
  { peers := [], conns := [], nextConn := 0, nextDesc := 0,
    localStream := some demoMedia, hasJoinedRoom := true, roomId := rR }

/-- A stored peer record whose remote description has been applied. -/
def plX : PeerLink :=
  { userId := uX, conn := 0, stream := some 5, iceCandidates := [],
    remoteDescriptionSet := true }

/-- The connection behind `plX`: negotiated, signaling state `stable`. -/
def rtcX : RTC :=
  { remoteDesc := some 1, localDesc := some 2, applied := [],
    senders := [TrackKind.audio, TrackKind.video], sigState := SigSt.stable,
    closed := false }

/-- A client holding one fully negotiated peer `uX`. -/
def stPeer : CState :=
  { peers := [(uX, plX)], conns := [(0, rtcX)], nextConn := 1, nextDesc := 3,
    localStream := some demoMedia, hasJoinedRoom := true, roomId := rR }

/-! ## Association list lemmas -/

theorem alookup_aset_self {α β : Type} [DecidableEq α] (l : List (α × β)) (k : α) (v : β) :
    alookup (aset l k v) k = some v := by
  induction l with
  | nil => simp [aset, alookup]
  | cons e rest ih =>
    obtain ⟨k0, v0⟩ := e
    by_cases h : k = k0 <;> simp [aset, alookup, h, ih]

theorem alookup_aset_ne {α β : Type} [DecidableEq α] (l : List (α × β)) (k k' : α) (v : β)
    (h : k' ≠ k) : alookup (aset l k v) k' = alookup l k' := by
  induction l with
  | nil => simp [aset, alookup, h]
  | cons e rest ih =>
    obtain ⟨k0, v0⟩ := e
    by_cases h1 : k = k0
    · subst h1
      simp [aset, alookup, h]
    · by_cases h2 : k' = k0 <;> simp [aset, alookup, h1, h2, ih]

theorem alookup_adel_ne {α β : Type} [DecidableEq α] (l : List (α × β)) (k k' : α)
    (h : k' ≠ k) : alookup (adel l k) k' = alookup l k' := by
  induction l with
  | nil => simp [adel]
  | cons e rest ih =>
    obtain ⟨k0, v0⟩ := e
    by_cases h1 : k = k0
    · subst h1
      simp [adel, alookup, h]
    · by_cases h2 : k' = k0 <;> simp [adel, alookup, h1, h2, ih]

theorem alookup_isSome_aset {α β : Type} [DecidableEq α] (l : List (α × β)) (k k' : α) (v : β)
    (h : (alookup l k').isSome) : (alookup (aset l k v) k').isSome := by
  by_cases hk : k' = k
  · subst hk
    simp [alookup_aset_self]
  · rwa [alookup_aset_ne l k k' v hk]

/-! ## Server lemmas -/

theorem findRoom_eq_none_iff (rooms : Rooms) (r : String) :
    findRoom rooms r = none ↔ r ∉ rooms.map Prod.fst := by
  induction rooms with
  | nil => simp [findRoom]
  | cons e rest ih =>
    obtain ⟨r0, us⟩ := e
    by_cases h : r = r0 <;> simp [findRoom, h, ih]

theorem findRoom_mem (rooms : Rooms) (r : String) (us : List String)
    (h : findRoom rooms r = some us) : (r, us) ∈ rooms := by
  induction rooms with
  | nil => simp [findRoom] at h
  | cons e rest ih =>
    obtain ⟨r0, us0⟩ := e
    by_cases h1 : r = r0
    · subst h1
      simp [findRoom] at h
      simp [h]
    · simp [findRoom, h1] at h
      exact List.mem_cons_of_mem _ (ih h)

theorem findRoom_append_left (l1 l2 : Rooms) (r : String) (us : List String)
    (h : findRoom l1 r = some us) : findRoom (l1 ++ l2) r = some us := by
  induction l1 with
  | nil => simp [findRoom] at h
  | cons e rest ih =>
    obtain ⟨r0, us0⟩ := e
    by_cases h1 : r = r0 <;> simp_all [findRoom, h1]

theorem findRoom_append_right (l1 l2 : Rooms) (r : String)
    (h : findRoom l1 r = none) : findRoom (l1 ++ l2) r = findRoom l2 r := by
  induction l1 with
  | nil => simp [findRoom]
  | cons e rest ih =>
    obtain ⟨r0, us0⟩ := e
    by_cases h1 : r = r0 <;> simp_all [findRoom, h1]

theorem keys_setRoomVal (rooms : Rooms) (r : String) (v : List String) :
    (setRoomVal rooms r v).map Prod.fst = rooms.map Prod.fst := by
  induction rooms with
  | nil => simp [setRoomVal]
  | cons e rest ih =>
    obtain ⟨r0, us0⟩ := e
    by_cases h : r0 = r <;> simp_all [setRoomVal, h]

theorem setRoomVal_cons (r0 : String) (us0 : List String) (rest : Rooms) (r : String)
    (v : List String) :
    setRoomVal ((r0, us0) :: rest) r v =
      (if r0 = r then (r, v) else (r0, us0)) :: setRoomVal rest r v := rfl

theorem findRoom_cons (r0 : String) (us0 : List String) (rest : Rooms) (r : String) :
    findRoom ((r0, us0) :: rest) r = if r = r0 then some us0 else findRoom rest r := rfl

theorem findRoom_setRoomVal (rooms : Rooms) (r : String) (v : List String) (r' : String) :
    findRoom (setRoomVal rooms r v) r' =
      if r' = r then (findRoom rooms r).map (fun _ => v) else findRoom rooms r' := by
  induction rooms with
  | nil => simp [setRoomVal, findRoom]
  | cons e rest ih =>
    obtain ⟨r0, us0⟩ := e
    rw [setRoomVal_cons]
    by_cases h1 : r0 = r
    · subst h1
      rw [if_pos rfl]
      by_cases h2 : r' = r0
      · subst h2
        simp [findRoom_cons]
      · simp only [findRoom_cons, h2, if_false] at ih ⊢
        exact ih
    · rw [if_neg h1]
      by_cases h2 : r' = r0
      · subst h2
        simp [findRoom_cons, h1]
      · have h4 : ¬r = r0 := fun hc => h1 hc.symm
        simp only [findRoom_cons, h2, if_false, h4]
        exact ih

theorem mem_setRoomVal (rooms : Rooms) (r : String) (v : List String) (e : String × List String)
    (h : e ∈ setRoomVal rooms r v) : e = (r, v) ∨ (e.1 ≠ r ∧ e ∈ rooms) := by
  simp only [setRoomVal, List.mem_map] at h
  obtain ⟨a, ha, rfl⟩ := h
  by_cases h1 : a.1 = r
  · simp [h1]
  · simp [h1, ha]

/-- The new-room and existing-room branches of `handleJoinRoom` produce the
same closed form for the updated map. -/
theorem joinRoom_fst (rooms : Rooms) (c r : String) :
    (joinRoom rooms c r).1 =
      setRoomVal (match findRoom rooms r with
                  | none => rooms ++ [(r, [])]
                  | some _ => rooms) r
        (addMem c (roomMembers rooms r)) := by
  unfold joinRoom
  cases h : findRoom rooms r with
  | none =>
    have h1 : findRoom (rooms ++ [(r, [])]) r = some [] := by
      rw [findRoom_append_right _ _ _ h]
      simp [findRoom]
    simp [h, h1, roomMembers]
  | some us =>
    simp [h, roomMembers]

/-- State effect of `handleJoinRoom` on the room map, room by room. -/
theorem findRoom_joinRoom (rooms : Rooms) (c r r' : String) :
    findRoom (joinRoom rooms c r).1 r' =
      if r' = r then some (addMem c (roomMembers rooms r)) else findRoom rooms r' := by
  rw [joinRoom_fst, findRoom_setRoomVal]
  by_cases h2 : r' = r
  · simp only [h2, if_true]
    cases h : findRoom rooms r with
    | none =>
      have h1 : findRoom (rooms ++ [(r, [])]) r = some [] := by
        rw [findRoom_append_right _ _ _ h]
        simp [findRoom]
      simp [h, h1]
    | some us => simp [h]
  · simp only [h2, if_false]
    cases h : findRoom rooms r with
    | none =>
      simp only [h]
      cases h3 : findRoom rooms r' with
      | none =>
        rw [findRoom_append_right _ _ _ h3]
        simp [findRoom, h2]
      | some us' => rw [findRoom_append_left _ _ _ _ h3]
    | some us => simp [h]

theorem roomMembers_joinRoom (rooms : Rooms) (c r r' : String) :
    roomMembers (joinRoom rooms c r).1 r' =
      if r' = r then addMem c (roomMembers rooms r) else roomMembers rooms r' := by
  unfold roomMembers
  rw [findRoom_joinRoom]
  by_cases h : r' = r <;> simp [h, roomMembers]

/-- One-step reduction of `handleDisconnect` on a cons cell. -/
theorem handleDisconnect_cons (r : String) (us : List String) (rest : Rooms) (c : String) :
    handleDisconnect ((r, us) :: rest) c =
      if c ∈ us then
        ((if us.erase c = [] then (handleDisconnect rest c).1
          else (r, us.erase c) :: (handleDisconnect rest c).1),
         (us.erase c).map (fun u => (u, SrvMsg.userLeft c)) ++ (handleDisconnect rest c).2)
      else ((r, us) :: (handleDisconnect rest c).1, (handleDisconnect rest c).2) := rfl

theorem keys_handleDisconnect_sublist (rooms : Rooms) (c : String) :
    ((handleDisconnect rooms c).1.map Prod.fst).Sublist (rooms.map Prod.fst) := by
  induction rooms with
  | nil => simp [handleDisconnect]
  | cons e rest ih =>
    obtain ⟨r, us⟩ := e
    rw [handleDisconnect_cons]
    by_cases h1 : c ∈ us
    · by_cases h2 : us.erase c = []
      · simp only [h1, if_true, h2, if_true, List.map_cons]
        exact ih.cons r
      · simp only [h1, if_true, h2, if_false, List.map_cons]
        exact ih.cons₂ r
    · simp only [h1, if_false, List.map_cons]
      exact ih.cons₂ r

theorem mem_handleDisconnect (rooms : Rooms) (c : String) (e : String × List String)
    (h : e ∈ (handleDisconnect rooms c).1) :
    (∃ r us, (r, us) ∈ rooms ∧ c ∈ us ∧ e = (r, us.erase c) ∧ us.erase c ≠ []) ∨
      e ∈ rooms := by
  induction rooms with
  | nil => simp [handleDisconnect] at h
  | cons e0 rest ih =>
    obtain ⟨r, us⟩ := e0
    by_cases h1 : c ∈ us
    · by_cases h2 : us.erase c = []
      · simp only [handleDisconnect, h1, if_true, h2, if_true] at h
        rcases ih h with ⟨r', us', hm, hc, he, hne⟩ | hm
        · exact Or.inl ⟨r', us', List.mem_cons_of_mem _ hm, hc, he, hne⟩
        · exact Or.inr (List.mem_cons_of_mem _ hm)
      · simp only [handleDisconnect, h1, if_true, h2, if_false, List.mem_cons] at h
        rcases h with rfl | h
        · exact Or.inl ⟨r, us, List.mem_cons_self _ _, h1, rfl, h2⟩
        · rcases ih h with ⟨r', us', hm, hc, he, hne⟩ | hm
          · exact Or.inl ⟨r', us', List.mem_cons_of_mem _ hm, hc, he, hne⟩
          · exact Or.inr (List.mem_cons_of_mem _ hm)
    · simp only [handleDisconnect, h1, if_false, List.mem_cons] at h
      rcases h with rfl | h
      · exact Or.inr (List.mem_cons_self _ _)
      · rcases ih h with ⟨r', us', hm, hc, he, hne⟩ | hm
        · exact Or.inl ⟨r', us', List.mem_cons_of_mem _ hm, hc, he, hne⟩
        · exact Or.inr (List.mem_cons_of_mem _ hm)

/-- State effect of `handleDisconnect`, room by room (needs distinct keys). -/
theorem roomMembers_handleDisconnect (rooms : Rooms) (c : String)
    (hk : (rooms.map Prod.fst).Nodup) (r : String) :
    roomMembers (handleDisconnect rooms c).1 r = (roomMembers rooms r).erase c := by
  induction rooms with
  | nil => simp [handleDisconnect, roomMembers, findRoom]
  | cons e rest ih =>
    obtain ⟨r0, us⟩ := e
    simp only [List.map_cons, List.nodup_cons] at hk
    obtain ⟨hk0, hk1⟩ := hk
    by_cases hr : r = r0
    · subst hr
      by_cases h1 : c ∈ us
      · by_cases h2 : us.erase c = []
        · have hnone : findRoom (handleDisconnect rest c).1 r = none := by
            rw [findRoom_eq_none_iff]
            intro hmem
            exact hk0 ((keys_handleDisconnect_sublist rest c).mem hmem)
          simp [handleDisconnect, h1, h2, roomMembers, findRoom, hnone]
        · simp [handleDisconnect, h1, h2, roomMembers, findRoom]
      · simp [handleDisconnect, h1, roomMembers, findRoom,
          List.erase_of_not_mem h1]
    · by_cases h1 : c ∈ us
      · by_cases h2 : us.erase c = [] <;>
          simp [handleDisconnect, h1, h2, roomMembers, findRoom, hr] <;>
          simpa [roomMembers] using ih hk1
      · simp [handleDisconnect, h1, roomMembers, findRoom, hr]
        simpa [roomMembers] using ih hk1

/-- The member list the map actually stores for a present room is one of the
map's entries; under `WFrooms` it is therefore duplicate-free. -/
theorem roomMembers_nodup (rooms : Rooms) (r : String) (hw : WFrooms rooms) :
    (roomMembers rooms r).Nodup := by
  unfold roomMembers
  cases h : findRoom rooms r with
  | none => simp
  | some us => simpa using hw.2.1 _ (findRoom_mem rooms r us h)

theorem addMem_nodup (c : String) (us : List String) (h : us.Nodup) :
    (addMem c us).Nodup := by
  unfold addMem
  by_cases hc : c ∈ us
  · simp [hc, h]
  · simp [hc, List.nodup_append, h]

theorem addMem_ne_nil (c : String) (us : List String) : addMem c us ≠ [] := by
  unfold addMem
  by_cases hc : c ∈ us
  · simp only [hc, if_true]
    intro h0
    rw [h0] at hc
    simp at hc
  · simp [hc]

/-- Every entry of the map after a join is either the updated room or an
untouched entry of the old map. -/
theorem mem_joinRoom (rooms : Rooms) (c r : String) (e : String × List String)
    (h : e ∈ (joinRoom rooms c r).1) :
    e = (r, addMem c (roomMembers rooms r)) ∨ (e.1 ≠ r ∧ e ∈ rooms) := by
  rw [joinRoom_fst] at h
  rcases mem_setRoomVal _ _ _ _ h with rfl | ⟨hne1, he2⟩
  · exact Or.inl rfl
  · refine Or.inr ⟨hne1, ?_⟩
    cases h3 : findRoom rooms r with
    | none =>
      rw [h3] at he2
      rcases List.mem_append.1 he2 with h4 | h4
      · exact h4
      · simp at h4
        exact absurd (by simp [h4]) hne1
    | some us =>
      rw [h3] at he2
      exact he2

theorem WF_joinRoom (rooms : Rooms) (c r : String) (hw : WFrooms rooms) :
    WFrooms (joinRoom rooms c r).1 := by
  obtain ⟨hk, hnd, hne⟩ := hw
  refine ⟨?_, ?_, ?_⟩
  · rw [joinRoom_fst, keys_setRoomVal]
    cases h : findRoom rooms r with
    | none =>
      simp only [List.map_append, List.map_cons, List.map_nil]
      rw [List.nodup_append]
      refine ⟨hk, by simp, ?_⟩
      intro a ha hb
      simp at hb
      subst hb
      exact (findRoom_eq_none_iff rooms a).1 h ha
    | some us => exact hk
  · intro e he
    rcases mem_joinRoom rooms c r e he with rfl | ⟨_, he2⟩
    · exact addMem_nodup c _ (roomMembers_nodup rooms r ⟨hk, hnd, hne⟩)
    · exact hnd _ he2
  · intro e he
    rcases mem_joinRoom rooms c r e he with rfl | ⟨_, he2⟩
    · exact addMem_ne_nil c _
    · exact hne _ he2

theorem WF_handleDisconnect (rooms : Rooms) (c : String) (hw : WFrooms rooms) :
    WFrooms (handleDisconnect rooms c).1 := by
  obtain ⟨hk, hnd, hne⟩ := hw
  refine ⟨(keys_handleDisconnect_sublist rooms c).nodup hk, ?_, ?_⟩
  · intro e he
    rcases mem_handleDisconnect rooms c e he with ⟨r, us, hm, _, rfl, _⟩ | hm
    · exact (hnd _ hm).erase c
    · exact hnd _ hm
  · intro e he
    rcases mem_handleDisconnect rooms c e he with ⟨r, us, hm, _, rfl, hne2⟩ | hm
    · exact hne2
    · exact hne _ hm


theorem WF_runServer (es : List SEvent) :
    ∀ st : Rooms, WFrooms st → WFrooms (runServer st es) := by
  induction es with
  | nil =>
    intro st h
    exact h
  | cons e rest ih =>
    intro st h
    cases e with
    | join c r => exact ih _ (WF_joinRoom st c r h)
    | disc c => exact ih _ (WF_handleDisconnect st c h)

theorem mem_addMem (c c' : String) (us : List String) :
    c' ∈ addMem c us ↔ c' = c ∨ c' ∈ us := by
  unfold addMem
  by_cases hc : c ∈ us
  · simp only [hc, if_true]
    exact (or_iff_right_of_imp (fun h => h ▸ hc)).symm
  · simp [hc, or_comm]

/-- Membership in the room map after a run equals the reference membership
history, relative to any well-formed start. -/
theorem runServer_members (es : List SEvent) :
    ∀ (st : Rooms) (m : String → String → Bool), WFrooms st →
      (∀ r c, (c ∈ roomMembers st r) ↔ m r c = true) →
      ∀ r c, (c ∈ roomMembers (runServer st es) r) ↔ runSpec m es r c = true := by
  induction es with
  | nil =>
    intro st m _ hm r c
    exact hm r c
  | cons e rest ih =>
    intro st m hw hm r c
    cases e with
    | join c0 r0 =>
      refine ih _ _ (WF_joinRoom st c0 r0 hw) ?_ r c
      intro r1 c1
      rw [roomMembers_joinRoom]
      by_cases h : r1 = r0
      · subst h
        rw [if_pos rfl, mem_addMem]
        by_cases hc : c1 = c0
        · simp [hc]
        · simp [hc, hm r1 c1]
      · rw [if_neg h]
        simp [h, hm r1 c1]
    | disc c0 =>
      refine ih _ _ (WF_handleDisconnect st c0 hw) ?_ r c
      intro r1 c1
      rw [roomMembers_handleDisconnect st c0 hw.1]
      by_cases hc : c1 = c0
      · subst hc
        have hnd : (roomMembers st r1).Nodup := roomMembers_nodup st r1 hw
        simp [hnd.not_mem_erase]
      · rw [List.mem_erase_of_ne hc]
        simp [hc, hm r1 c1]

theorem WF_nil : WFrooms [] := by
  refine ⟨by simp, by simp, by simp⟩

/-- Member-set mutation of a join by an existing member: nothing changes. -/
theorem joinRoom_members_of_mem (rooms : Rooms) (c r : String)
    (h : c ∈ roomMembers rooms r) (r' : String) :
    roomMembers (joinRoom rooms c r).1 r' = roomMembers rooms r' := by
  rw [roomMembers_joinRoom]
  by_cases h2 : r' = r
  · subst h2
    simp [addMem, h]
  · simp [h2]

/-- Invariant transport: every room present after a run of events (from the
empty map) has a non-empty, duplicate-free member list. -/
theorem runServer_WF (es : List SEvent) : WFrooms (runServer [] es) :=
  WF_runServer es [] WF_nil

/-! ## Notification-shape lemmas -/

/-- Closed form of the messages emitted by `handleJoinRoom`. -/
theorem joinRoom_snd (rooms : Rooms) (c r : String) :
    (joinRoom rooms c r).2 =
      (roomMembers rooms r).map (fun u => (u, SrvMsg.userJoined c)) ++
        [(c, SrvMsg.roomUsers
          ((addMem c (roomMembers rooms r)).filter (fun x => x ≠ c)))] := by
  unfold joinRoom
  cases h : findRoom rooms r with
  | none =>
    have h1 : findRoom (rooms ++ [(r, [])]) r = some [] := by
      rw [findRoom_append_right _ _ _ h]
      simp [findRoom]
    simp [h, h1, roomMembers]
  | some us => simp [h, roomMembers]

theorem count_map_pair (us : List String) (u : String) (m : SrvMsg) :
    ((us.map (fun x => (x, m))).count (u, m)) = us.count u := by
  induction us with
  | nil => simp
  | cons a rest ih => simp [List.count_cons, ih]

/-- Closed form of the messages emitted by `handleDisconnect`: one batch per
room containing the client, nothing for the other rooms. -/
theorem disconnect_sends_flatMap (rooms : Rooms) (c : String) :
    (handleDisconnect rooms c).2 =
      rooms.flatMap (fun e =>
        if c ∈ e.2 then (e.2.erase c).map (fun u => (u, SrvMsg.userLeft c))
        else []) := by
  induction rooms with
  | nil => simp [handleDisconnect]
  | cons e rest ih =>
    obtain ⟨r, us⟩ := e
    rw [handleDisconnect_cons]
    by_cases h1 : c ∈ us <;> simp [h1, ih]

/-- A room whose only member disconnects disappears from the map. -/
theorem findRoom_handleDisconnect_deleted (rooms : Rooms) (c r : String)
    (hk : (rooms.map Prod.fst).Nodup) (hm : findRoom rooms r = some [c]) :
    findRoom (handleDisconnect rooms c).1 r = none := by
  induction rooms with
  | nil => simp [findRoom] at hm
  | cons e rest ih =>
    obtain ⟨r0, us⟩ := e
    simp only [List.map_cons, List.nodup_cons] at hk
    rw [handleDisconnect_cons]
    by_cases hr : r = r0
    · subst hr
      rw [findRoom_cons, if_pos rfl] at hm
      have hus : us = [c] := by simpa using hm
      subst hus
      have hc : c ∈ [c] := by simp
      rw [if_pos hc]
      have he : ([c] : List String).erase c = [] := by simp
      rw [he]
      simp only [if_pos rfl]
      rw [findRoom_eq_none_iff]
      intro hmem
      exact hk.1 ((keys_handleDisconnect_sublist rest c).mem hmem)
    · rw [findRoom_cons, if_neg hr] at hm
      by_cases h1 : c ∈ us
      · by_cases h2 : us.erase c = []
        · rw [if_pos h1, if_pos h2]
          exact ih hk.2 hm
        · rw [if_pos h1, if_neg h2]
          simp only [findRoom_cons, hr, if_false]
          exact ih hk.2 hm
      · rw [if_neg h1]
        simp only [findRoom_cons, hr, if_false]
        exact ih hk.2 hm

/-! ## Claim theorems: server side -/

/-- C2: after any sequence of join and disconnect events applied to the
server's room map, a connection is a member of a room exactly when it issued a
join for that room and has not since disconnected; and a join by a connection
that is already a member leaves every room's member set unchanged. -/
theorem member_set_matches_join_history (es : List SEvent) (r c : String) :
    ((c ∈ roomMembers (runServer [] es) r) ↔ joinedSince es r c = true)
    ∧ ∀ rooms : Rooms, c ∈ roomMembers rooms r →
        ∀ r' : String, roomMembers (joinRoom rooms c r).1 r' = roomMembers rooms r' := by
  constructor
  · exact runServer_members es [] (fun _ _ => false) WF_nil
      (by intro r1 c1; simp [roomMembers, findRoom]) r c
  · intro rooms h r'
    exact joinRoom_members_of_mem rooms c r h r'

theorem member_set_matches_join_history_witness :
    ((uB ∈ roomMembers (runServer [] demoEvents) rR) ↔ joinedSince demoEvents rR uB = true)
    ∧ (uB ∈ roomMembers demoRooms rR)
    ∧ roomMembers (joinRoom demoRooms uB rR).1 rR = roomMembers demoRooms rR :=
  ⟨(member_set_matches_join_history demoEvents rR uB).1, by decide,
   (member_set_matches_join_history demoEvents rR uB).2 demoRooms (by decide) rR⟩

/-- C3 counterexample: a repeated join by a connection that is already a member
sends that very connection a `user-joined` notification carrying its own id,
so the joiner does receive a `user-joined`, contrary to the claim. -/
theorem rejoin_notifies_joiner_itself :
    (uX, SrvMsg.userJoined uX) ∈ (joinRoom [(rR, [uX])] uX rR).2 := by decide

/-- C3 (amended): for a join by a connection that is **not** already a member:
the joiner is appended to the room's member set (other rooms unchanged), the
joiner (and only the joiner) receives a `room-users` message listing exactly
the members present before the join, each member present before the join
receives exactly one `user-joined` with the joiner's id, and the joiner
receives no `user-joined`; a join by an existing member leaves all member sets
unchanged (but re-notifies every current member, including the joiner). -/
theorem fresh_join_sends_exact (rooms : Rooms) (c r : String)
    (h : c ∉ roomMembers rooms r) (hnd : (roomMembers rooms r).Nodup) :
    roomMembers (joinRoom rooms c r).1 r = roomMembers rooms r ++ [c]
    ∧ (∀ r', r' ≠ r → roomMembers (joinRoom rooms c r).1 r' = roomMembers rooms r')
    ∧ (joinRoom rooms c r).2 =
        (roomMembers rooms r).map (fun u => (u, SrvMsg.userJoined c)) ++
          [(c, SrvMsg.roomUsers (roomMembers rooms r))]
    ∧ (∀ u ∈ roomMembers rooms r,
        ((joinRoom rooms c r).2.count (u, SrvMsg.userJoined c)) = 1)
    ∧ (c, SrvMsg.userJoined c) ∉ (joinRoom rooms c r).2
    ∧ ∀ rooms' : Rooms, c ∈ roomMembers rooms' r →
        ∀ r'', roomMembers (joinRoom rooms' c r).1 r'' = roomMembers rooms' r'' := by
  have hfilter : (addMem c (roomMembers rooms r)).filter (fun x => x ≠ c) =
      roomMembers rooms r := by
    unfold addMem
    rw [if_neg h, List.filter_append, List.filter_eq_self.mpr, List.filter_cons]
    · simp
    · intro a ha
      simp only [ne_eq, decide_eq_true_eq]
      exact fun hc => h (hc ▸ ha)
  refine ⟨?_, ?_, ?_, ?_, ?_, ?_⟩
  · rw [roomMembers_joinRoom, if_pos rfl]
    unfold addMem
    rw [if_neg h]
  · intro r' hr
    rw [roomMembers_joinRoom, if_neg hr]
  · rw [joinRoom_snd, hfilter]
  · intro u hu
    rw [joinRoom_snd, List.count_append, count_map_pair,
      List.count_eq_one_of_mem hnd hu]
    have : ((u, SrvMsg.userJoined c) ∈
        [(c, SrvMsg.roomUsers ((addMem c (roomMembers rooms r)).filter
          (fun x => x ≠ c)))]) = False := by simp
    rw [List.count_singleton]
    simp
  · rw [joinRoom_snd]
    intro hmem
    rcases List.mem_append.1 hmem with h1 | h1
    · rcases List.mem_map.1 h1 with ⟨u, hu, he⟩
      have : u = c := by simpa using congrArg Prod.fst he
      exact h (this ▸ hu)
    · simp at h1
  · intro rooms' hmem r''
    exact joinRoom_members_of_mem rooms' c r hmem r''

theorem fresh_join_sends_exact_witness :
    (uB ∉ roomMembers [(rR, [uA])] rR)
    ∧ roomMembers (joinRoom [(rR, [uA])] uB rR).1 rR = [uA] ++ [uB]
    ∧ (joinRoom [(rR, [uA])] uB rR).2 =
        [(uA, SrvMsg.userJoined uB), (uB, SrvMsg.roomUsers [uA])] := by
  have h := fresh_join_sends_exact [(rR, [uA])] uB rR (by decide) (by decide)
  refine ⟨by decide, ?_, ?_⟩
  · exact h.1
  · rw [h.2.2.1]
    decide

/-- C4: on disconnect of `c`, `c` is removed from every room; the emitted
messages are exactly, per room containing `c` (and in map order), one
`user-left` carrying `c`'s id to each remaining member — each such member
counted exactly once per affected room — and no message arises from rooms not
containing `c`. -/
theorem disconnect_removes_and_notifies (rooms : Rooms) (c : String)
    (hw : WFrooms rooms) :
    (∀ r, c ∉ roomMembers (handleDisconnect rooms c).1 r)
    ∧ (handleDisconnect rooms c).2 =
        rooms.flatMap (fun e =>
          if c ∈ e.2 then (e.2.erase c).map (fun u => (u, SrvMsg.userLeft c))
          else [])
    ∧ ∀ e ∈ rooms, c ∈ e.2 → ∀ u ∈ e.2.erase c,
        (((e.2.erase c).map (fun u' => (u', SrvMsg.userLeft c))).count
          (u, SrvMsg.userLeft c)) = 1 := by
  refine ⟨?_, disconnect_sends_flatMap rooms c, ?_⟩
  · intro r
    rw [roomMembers_handleDisconnect rooms c hw.1]
    exact (roomMembers_nodup rooms r hw).not_mem_erase
  · intro e he hc u hu
    rw [count_map_pair]
    exact List.count_eq_one_of_mem ((hw.2.1 e he).erase c) hu

theorem disconnect_removes_and_notifies_witness :
    WFrooms demoRooms2
    ∧ (uA ∉ roomMembers (handleDisconnect demoRooms2 uA).1 rR)
    ∧ (handleDisconnect demoRooms2 uA).2 = [(uB, SrvMsg.userLeft uA)] := by
  have hw : WFrooms demoRooms2 := ⟨by decide, by decide, by decide⟩
  have h := disconnect_removes_and_notifies demoRooms2 uA hw
  exact ⟨hw, h.1 rR, by decide⟩

/-- C5: in every state reachable from the empty map by join and disconnect
events, every room present in the map has a non-empty member set; and a
disconnect by the sole member of a room removes the room from the map in that
same operation. -/
theorem rooms_nonempty_and_last_leave_deletes (es : List SEvent) (rooms : Rooms)
    (c r : String) (hk : (rooms.map Prod.fst).Nodup)
    (hm : findRoom rooms r = some [c]) :
    (((runServer [] es).all fun e => !e.2.isEmpty) = true)
    ∧ findRoom (handleDisconnect rooms c).1 r = none := by
  constructor
  · rw [List.all_eq_true]
    intro e he
    have hne := (runServer_WF es).2.2 e he
    cases h : e.2 with
    | nil => exact absurd h hne
    | cons a l => simp [h]
  · exact findRoom_handleDisconnect_deleted rooms c r hk hm

theorem rooms_nonempty_and_last_leave_deletes_witness :
    (((runServer [] demoEvents).all fun e => !e.2.isEmpty) = true)
    ∧ findRoom (handleDisconnect [(rR, [uA])] uA).1 rR = none :=
  ⟨(rooms_nonempty_and_last_leave_deletes demoEvents [(rR, [uA])] uA rR
      (by decide) (by decide)).1,
   (rooms_nonempty_and_last_leave_deletes demoEvents [(rR, [uA])] uA rR
      (by decide) (by decide)).2⟩

/-- C8: each of the three relay handlers leaves the room map unchanged and
emits the payload, with the sender attached as `from`, to exactly the target
when the target is a registered connection, and to nobody otherwise. -/
theorem relay_forwards_or_drops (registry : List String) (rooms : Rooms)
    (sender : String) (payload : Nat) (target : String) :
    srvForwardOffer registry rooms sender payload target =
      (rooms, if target ∈ registry then [(target, SrvMsg.offerFwd payload sender)] else [])
    ∧ srvForwardAnswer registry rooms sender payload target =
      (rooms, if target ∈ registry then [(target, SrvMsg.answerFwd payload sender)] else [])
    ∧ srvForwardCand registry rooms sender payload target =
      (rooms, if target ∈ registry then [(target, SrvMsg.candFwd payload sender)] else []) :=
  ⟨rfl, rfl, rfl⟩

/-! ## Client lemmas -/

theorem offerToNew_preserves (st : CState) (u uid : String)
    (hp : (alookup st.peers uid).isSome) :
    alookup (offerToNew st u).1.peers uid = alookup st.peers uid
    ∧ ∀ d, Out.offerMsg uid d ∉ (offerToNew st u).2 := by
  unfold offerToNew
  by_cases h : (alookup st.peers u).isSome
  · simp [h]
  · have hne : uid ≠ u := by
      intro he
      rw [he] at hp
      exact h hp
    simp only [h, Bool.false_eq_true, if_false]
    constructor
    · unfold createPeerConnection
      exact alookup_aset_ne st.peers u uid _ hne
    · intro d hmem
      simp at hmem
      exact hne hmem.1

theorem handleRoomUsers_preserves (users : List String) (uid : String) :
    ∀ st : CState, (alookup st.peers uid).isSome →
      alookup (handleRoomUsers st users).1.peers uid = alookup st.peers uid
      ∧ ∀ d, Out.offerMsg uid d ∉ (handleRoomUsers st users).2 := by
  induction users with
  | nil =>
    intro st _
    simp [handleRoomUsers]
  | cons u rest ih =>
    intro st hp
    have h1 := offerToNew_preserves st u uid hp
    have hp1 : (alookup (offerToNew st u).1.peers uid).isSome := by
      rw [h1.1]
      exact hp
    have h2 := ih (offerToNew st u).1 hp1
    constructor
    · show alookup (handleRoomUsers (offerToNew st u).1 rest).1.peers uid = _
      rw [h2.1, h1.1]
    · intro d hmem
      have : (handleRoomUsers st (u :: rest)).2 =
          (offerToNew st u).2 ++ (handleRoomUsers (offerToNew st u).1 rest).2 := rfl
      rw [this] at hmem
      rcases List.mem_append.1 hmem with hm | hm
      · exact h1.2 d hm
      · exact h2.2 d hm

theorem replaceTrackOuts_mem (st : CState) (k : TrackKind) (tid : Nat)
    (e : String × PeerLink) (he : e ∈ st.peers)
    (hk : k ∈ (getRTC st.conns e.2.conn).senders) :
    Out.replaceTrack e.1 k tid ∈ replaceTrackOuts st k tid := by
  unfold replaceTrackOuts
  exact List.mem_filterMap.mpr ⟨e, he, by simp [hk]⟩

theorem replaceTrackOuts_isReplace (st : CState) (k : TrackKind) (tid : Nat) :
    ∀ o ∈ replaceTrackOuts st k tid, o.isReplaceTrack = true := by
  intro o ho
  unfold replaceTrackOuts at ho
  rcases List.mem_filterMap.mp ho with ⟨e, _, hsome⟩
  by_cases h : k ∈ (getRTC st.conns e.2.conn).senders
  · simp only [h, if_true, Option.some_inj] at hsome
    rw [← hsome]
    rfl
  · simp [h] at hsome

/-! ## Claim theorems: client side -/

/-- C1 (code evaluation at the failing input): an offer arriving from `uX`
while no PeerLink exists applies the remote description to the underlying
connection, but the *stored* PeerLink keeps `remoteDescriptionSet = false`
(`handleOffer` sets the flag only on a discarded local record); an ICE
candidate arriving next is therefore appended to the stored queue — and not
flushed by the offer handling that applied the remote description — although
the remote description is already applied, instead of being applied
immediately as the claim requires. -/
theorem offer_alias_bug_leaves_candidate_queued :
    (getRTC (handleIceCandidate (handleOffer stBase uX 100).1 uX 7).1.conns 0).remoteDesc
        = some 100
    ∧ (alookup (handleOffer stBase uX 100).1.peers uX).map PeerLink.remoteDescriptionSet
        = some false
    ∧ (alookup (handleIceCandidate (handleOffer stBase uX 100).1 uX 7).1.peers uX).map
        PeerLink.iceCandidates = some [7]
    ∧ (getRTC (handleIceCandidate (handleOffer stBase uX 100).1 uX 7).1.conns 0).applied
        = [] := by decide

/-- C6 counterexample: at a fully negotiated peer in signaling state `stable`
that reports connectivity `failed`, the handler emits exactly the
`restartIce` call and no offer — the orchestrator never regenerates or
resends an offer flagged as a restart (there is no negotiationneeded
handler), contrary to the claim's description of the restart. -/
theorem restart_emits_no_offer_cex :
    (onConnectionStateChange stPeer uX ConnSt.failed).2 = [Out.restartIce uX]
    ∧ ((onConnectionStateChange stPeer uX ConnSt.failed).2.any
        (fun o => o.isOfferMsg)) = false
    ∧ (onConnectionStateChange stPeer uX ConnSt.failed).1 = stPeer := by decide

/-- C6 (amended): when the session reports `Disconnected` or `Failed` and the
stored PeerLink's connection is in signaling state `stable`, the handler
invokes the session's ICE-restart primitive and nothing else: it emits no
offer, and the orchestrator state — in particular the PeerLink's presence in
the map, its identity and its stored remote stream — is unchanged, so the
PeerLink is not torn down. -/
theorem restart_preserves_peerlink (st : CState) (uid : String) (s : ConnSt)
    (p : PeerLink) (hs : s = ConnSt.failed ∨ s = ConnSt.disconnected)
    (hp : alookup st.peers uid = some p)
    (hsig : (getRTC st.conns p.conn).sigState = SigSt.stable) :
    onConnectionStateChange st uid s = (st, [Out.restartIce uid]) := by
  unfold onConnectionStateChange
  rcases hs with rfl | rfl <;> simp [hp, hsig]

theorem restart_preserves_peerlink_witness :
    (alookup stPeer.peers uX = some plX)
    ∧ ((getRTC stPeer.conns plX.conn).sigState = SigSt.stable)
    ∧ onConnectionStateChange stPeer uX ConnSt.failed = (stPeer, [Out.restartIce uX]) :=
  ⟨by decide, by decide,
   restart_preserves_peerlink stPeer uX ConnSt.failed plX (Or.inl rfl)
     (by decide) (by decide)⟩

/-- C7: on socket (re)connect with a previously joined room and a live local
stream, the client re-emits `join-room` for the stored room id; and the
bootstrap is idempotent for peers already present: `handleRoomUsers` leaves an
existing PeerLink's record untouched and emits no offer to it, and
`handleUserJoined` for an existing peer changes nothing and emits nothing. -/
theorem reconnect_rejoin_idempotent (st : CState) (users : List String) (uid : String)
    (hj : st.hasJoinedRoom = true) (hs : st.localStream.isSome = true)
    (hp : (alookup st.peers uid).isSome = true) :
    onSocketConnect st = (st, [Out.joinRoom st.roomId])
    ∧ alookup (handleRoomUsers st users).1.peers uid = alookup st.peers uid
    ∧ (∀ d, Out.offerMsg uid d ∉ (handleRoomUsers st users).2)
    ∧ handleUserJoined st uid = (st, []) := by
  refine ⟨?_, (handleRoomUsers_preserves users uid st hp).1,
    (handleRoomUsers_preserves users uid st hp).2, ?_⟩
  · unfold onSocketConnect
    simp [hj, hs]
  · unfold handleUserJoined
    simp [hp]

theorem reconnect_rejoin_idempotent_witness :
    (stPeer.hasJoinedRoom = true) ∧ (stPeer.localStream.isSome = true)
    ∧ ((alookup stPeer.peers uX).isSome = true)
    ∧ onSocketConnect stPeer = (stPeer, [Out.joinRoom stPeer.roomId])
    ∧ alookup (handleRoomUsers stPeer [uX, uB]).1.peers uX = alookup stPeer.peers uX
    ∧ handleUserJoined stPeer uX = (stPeer, []) := by
  have h := reconnect_rejoin_idempotent stPeer [uX, uB] uX
    (by decide) (by decide) (by decide)
  exact ⟨by decide, by decide, by decide, h.1, h.2.1, h.2.2.2⟩

/-- C9: toggling the local audio or video track changes no PeerLink record
(negotiation flag, candidate queue, stored remote stream) and no connection's
negotiation state, every emission is a `replaceTrack` call (in particular no
offer is ever emitted), and the same substitution is applied to every live
PeerLink whose connection holds a sender of the toggled kind. -/
theorem toggle_tracks_pure_substitution (st : CState) :
    (toggleAudio st).1.peers = st.peers ∧ (toggleAudio st).1.conns = st.conns
    ∧ (∀ o ∈ (toggleAudio st).2, o.isReplaceTrack = true)
    ∧ (∀ e ∈ st.peers, ∀ lm t, st.localStream = some lm → lm.audio = some t →
        TrackKind.audio ∈ (getRTC st.conns e.2.conn).senders →
        Out.replaceTrack e.1 TrackKind.audio t.id ∈ (toggleAudio st).2)
    ∧ (toggleVideo st).1.peers = st.peers ∧ (toggleVideo st).1.conns = st.conns
    ∧ (∀ o ∈ (toggleVideo st).2, o.isReplaceTrack = true)
    ∧ (∀ e ∈ st.peers, ∀ lm t, st.localStream = some lm → lm.video = some t →
        TrackKind.video ∈ (getRTC st.conns e.2.conn).senders →
        Out.replaceTrack e.1 TrackKind.video t.id ∈ (toggleVideo st).2) := by
  refine ⟨?_, ?_, ?_, ?_, ?_, ?_, ?_, ?_⟩
  · unfold toggleAudio
    cases hls : st.localStream with
    | none => rfl
    | some lm =>
      obtain ⟨la, lv⟩ := lm
      cases la with
      | none => rfl
      | some t => rfl
  · unfold toggleAudio
    cases hls : st.localStream with
    | none => rfl
    | some lm =>
      obtain ⟨la, lv⟩ := lm
      cases la with
      | none => rfl
      | some t => rfl
  · unfold toggleAudio
    cases hls : st.localStream with
    | none => simp
    | some lm =>
      obtain ⟨la, lv⟩ := lm
      cases la with
      | none => simp
      | some t => exact replaceTrackOuts_isReplace st TrackKind.audio t.id
  · intro e he lm t hls ha hk
    simp only [toggleAudio, hls, ha]
    exact replaceTrackOuts_mem st TrackKind.audio t.id e he hk
  · unfold toggleVideo
    cases hls : st.localStream with
    | none => rfl
    | some lm =>
      obtain ⟨la, lv⟩ := lm
      cases lv with
      | none => rfl
      | some t => rfl
  · unfold toggleVideo
    cases hls : st.localStream with
    | none => rfl
    | some lm =>
      obtain ⟨la, lv⟩ := lm
      cases lv with
      | none => rfl
      | some t => rfl
  · unfold toggleVideo
    cases hls : st.localStream with
    | none => simp
    | some lm =>
      obtain ⟨la, lv⟩ := lm
      cases lv with
      | none => simp
      | some t => exact replaceTrackOuts_isReplace st TrackKind.video t.id
  · intro e he lm t hls hv hk
    simp only [toggleVideo, hls, hv]
    exact replaceTrackOuts_mem st TrackKind.video t.id e he hk

theorem toggle_tracks_pure_substitution_witness :
    (toggleAudio stPeer).1.peers = stPeer.peers
    ∧ (toggleAudio stPeer).1.conns = stPeer.conns
    ∧ Out.replaceTrack uX TrackKind.audio 0 ∈ (toggleAudio stPeer).2 := by
  have h := toggle_tracks_pure_substitution stPeer
  exact ⟨h.1, h.2.1,
    h.2.2.2.1 (uX, plX) (by decide) demoMedia { id := 0, enabled := true }
      (by decide) (by decide) (by decide)⟩

/-- C10: an inbound answer or ICE candidate whose sender has no PeerLink in
the map is ignored entirely: no PeerLink is created, nothing is buffered, the
orchestrator state is unchanged and nothing is emitted. -/
theorem unknown_sender_ignored (st : CState) (fromU : String) (a c : Nat)
    (h : alookup st.peers fromU = none) :
    handleAnswer st fromU a = (st, []) ∧ handleIceCandidate st fromU c = (st, []) := by
  constructor
  · unfold handleAnswer
    rw [h]
  · unfold handleIceCandidate
    rw [h]

theorem unknown_sender_ignored_witness :
    (alookup stBase.peers uX = none)
    ∧ handleAnswer stBase uX 9 = (stBase, [])
    ∧ handleIceCandidate stBase uX 9 = (stBase, []) :=
  ⟨by decide, (unknown_sender_ignored stBase uX 9 9 (by decide)).1,
   (unknown_sender_ignored stBase uX 9 9 (by decide)).2⟩

end VideoCallApp
